import Mathlib

/-!
Verification of the `fetch_us_market.py` report generator.

The script's pure computation is embedded shallowly:

* Python `str` values become `List Char`; `str.strip`, `str.replace`,
  `str.find` and slicing become the explicit list functions below.
* Python `float` values become `ℚ`; the IEEE NaN sentinel produced by the
  guarded `pct` helper becomes `Option ℚ` with `none` standing for NaN.
  `round(x, 2)` is modelled by `round2` (nearest multiple of 1/100); the
  half-even/half-up tie difference is irrelevant to every property below.
* The yfinance download is an external input, so `fetch_prices` is embedded
  as a function of the downloaded table, modelled as a map from ticker to
  the list of daily rows, where a row is `some close` when it survives
  `dropna` and `none` when `dropna` removes it.
* The RSS download is likewise external: `fetch_news` is embedded as a
  function of the parsed feeds.  A feed whose fetch/parse raises is skipped
  by the script's per-feed handler, which is the same as that feed
  contributing no entries.
-/

/-- The ASCII whitespace characters removed by Python's `str.strip()`:
space, tab, newline, carriage return, vertical tab, form feed. -/
def isPySpace (c : Char) : Bool :=
  c = ' ' || c = '\t' || c = '\n' || c = '\r' || c.toNat = 11 || c.toNat = 12

/-- Python `text.strip()`: drop leading and trailing whitespace. -/
def pyStrip (l : List Char) : List Char :=
  ((l.dropWhile isPySpace).reverse.dropWhile isPySpace).reverse

/-- Python `s.replace("\n", " ")`: every newline becomes a space. -/
def replaceNl (l : List Char) : List Char :=
  l.map (fun c => if c = '\n' then ' ' else c)

/-- Python `s.replace("  ", " ")`: one left-to-right pass replacing each
non-overlapping occurrence of two spaces by one space. -/
def collapseTwo : List Char → List Char
  | [] => []
  | [c] => [c]
  | c1 :: c2 :: rest =>
    if c1 = ' ' ∧ c2 = ' ' then ' ' :: collapseTwo rest
    else c1 :: collapseTwo (c2 :: rest)

/-- Holds (`true`) when the string contains no two adjacent spaces. -/
def noTwoSpaces : List Char → Bool
  | c1 :: c2 :: rest =>
    if c1 = ' ' ∧ c2 = ' ' then false else noTwoSpaces (c2 :: rest)
  | _ => true

/-- Python `s.find(". ")`: index of the first occurrence of a period
followed by a space, `none` when there is none (Python's `-1`). -/
def findDot : List Char → Option Nat
  | c1 :: c2 :: rest =>
    if c1 = '.' ∧ c2 = ' ' then some 0
    else (findDot (c2 :: rest)).map (fun n => n + 1)
  | _ => none

/-- The cleaning pass of `safe_first_sentence`:
`text.strip().replace("\n", " ").replace("  ", " ")`. -/
def cleanText (text : List Char) : List Char :=
  collapseTwo (replaceNl (pyStrip text))

/-- The truncation decision of `safe_first_sentence`: Python's
`dot = s.find(". "); if 0 < dot < max_chars: s = s[:dot+1]`. -/
def cutAtDot (s : List Char) (maxChars : Nat) : List Char :=
  match findDot s with
  | some dot => if 0 < dot ∧ dot < maxChars then s.take (dot + 1) else s
  | none => s

/-- Function `safe_first_sentence` from the script: falsy (empty) input yields `""`;
otherwise clean, cut after the first ". " when its index satisfies
`0 < dot < maxChars`, and finally hard-truncate to `maxChars`
(the final `return s[:max_chars]`). -/
def safe_first_sentence (text : List Char) (maxChars : Nat) : List Char :=
  if text = [] then [] else (cutAtDot (cleanText text) maxChars).take maxChars

/-- The truncation rule exactly as the claim states it: truncate
immediately after the first ". " whenever that occurrence lies before the
character budget (any index, including 0), otherwise hard-truncate. -/
def claimedCut (s : List Char) (maxChars : Nat) : List Char :=
  match findDot s with
  | some dot => if dot < maxChars then s.take (dot + 1) else s.take maxChars
  | none => s.take maxChars

/-- The excerpting rule exactly as the claim states it, over the same
cleaning pass. -/
def claimed_first_sentence (text : List Char) (maxChars : Nat) : List Char :=
  if text = [] then [] else claimedCut (cleanText text) maxChars

/-- The truncation rule as amended: truncate after the first ". " only
when its index is strictly positive and below the budget; otherwise (not
found, at index 0, or at/after the budget) hard-truncate at the budget. -/
def amendedCut (s : List Char) (maxChars : Nat) : List Char :=
  match findDot s with
  | some dot =>
    if 0 < dot ∧ dot < maxChars then s.take (dot + 1) else s.take maxChars
  | none => s.take maxChars

/-- The excerpting rule as amended, over the same cleaning pass. -/
def amended_first_sentence (text : List Char) (maxChars : Nat) : List Char :=
  if text = [] then [] else amendedCut (cleanText text) maxChars

/-- The body of `pct`'s `try` block: `(a/b - 1.0) * 100.0`, with the
exceptions Python would raise (`ZeroDivisionError` on a zero divisor,
`TypeError` on a missing operand) embedded as `Except.error`. -/
def pctTry (a b : Option ℚ) : Except String ℚ :=
  match a, b with
  | some x, some y =>
    if y = 0 then Except.error ("ZeroDivisionError")
    else Except.ok ((x / y - 1) * 100)
  | _, _ => Except.error ("TypeError")

/-- Function `pct` from the script: the `try` body with every exception caught and
turned into the NaN sentinel (`none`). -/
def pct (a b : Option ℚ) : Option ℚ :=
  match pctTry a b with
  | Except.ok v => some v
  | Except.error _ => none

/-- Python `round(x, 2)`: round to the nearest multiple of 1/100. -/
def round2 (q : ℚ) : ℚ := ((round (q * 100) : ℤ) : ℚ) / 100

/-- The configured ticker list with display labels, in source order. -/
def TICKERS : List (String × String) :=
  [("^GSPC", "S&P 500"),
   ("^IXIC", "NASDAQ"),
   ("^DJI", "Dow Jones"),
   ("^VIX", "VIX"),
   ("^TNX", "US 10Y")]

/-- One row of the rendered index table. -/
structure IndexQuote where
  ticker : String
  name : String
  last : ℚ
  chgpct : Option ℚ
deriving DecidableEq, Repr

/-- The per-ticker body of `fetch_prices`.  The downloaded table gives, per
ticker, its rows in time order: `some close` for a row kept by `dropna`,
`none` for a dropped one.  Fewer than two clean rows, or a tail that does
not have exactly two closes (which would raise and be caught by the
per-ticker handler), skips the ticker. -/
def quoteFor (data : String → List (Option ℚ)) (tk label : String) :
    Option IndexQuote :=
  if ((data tk).filterMap id).length < 2 then none
  else
    match ((data tk).filterMap id).drop (((data tk).filterMap id).length - 2) with
    | [prev_close, last_close] =>
      some { ticker := tk
             name := label
             last := round2 (if tk = "^TNX" then last_close / 10 else last_close)
             chgpct := Option.map round2 (pct (some last_close) (some prev_close)) }
    | _ => none

/-- Function `fetch_prices` from the script, as a function of the downloaded data:
iterate the configured tickers in order, keeping each one's quote. -/
def fetch_prices (data : String → List (Option ℚ)) : List IndexQuote :=
  TICKERS.filterMap (fun p => quoteFor data p.1 p.2)

/-- Constant `NEWS_LIMIT` from the script: global cap on the news list. -/
def NEWS_LIMIT : Nat := 12

/-- Constant `NEWS_PER_SOURCE` from the script: cap per feed. -/
def NEWS_PER_SOURCE : Nat := 5

/-- One parsed feed entry.  `e.get("title", "")` makes a missing field and
an empty field indistinguishable, so a missing field is the empty string. -/
structure Entry where
  title : List Char
  link : List Char
  summary : List Char
  description : List Char
deriving DecidableEq, Repr

/-- One parsed feed: its configured name and its entries in feed order. -/
structure Feed where
  name : List Char
  entries : List Entry
deriving DecidableEq, Repr

/-- One collected news item. -/
structure NewsItem where
  title : List Char
  link : List Char
  source : List Char
  summary : List Char
deriving DecidableEq, Repr

/-- An entry the loop accepts: non-empty title and non-empty link. -/
def validEntry (e : Entry) : Bool := !(decide (e.title = [] ∨ e.link = []))

/-- The per-feed loop of `fetch_news`: walk the entries with the running
`count`, stop once `count >= NEWS_PER_SOURCE`, skip entries with an empty
title or link without touching `count`, and otherwise append the item
(stripped title and link, feed name as source, excerpted summary, where an
empty summary field falls back to the description field). -/
def collectAux (src : List Char) : List Entry → Nat → List NewsItem
  | [], _ => []
  | e :: rest, count =>
    if NEWS_PER_SOURCE ≤ count then []
    else if e.title = [] ∨ e.link = [] then collectAux src rest count
    else
      { title := pyStrip e.title
        link := pyStrip e.link
        source := src
        summary :=
          safe_first_sentence
            (if e.summary = [] then e.description else e.summary) 220 } ::
        collectAux src rest (count + 1)

/-- All items collected before deduplication, in feed-iteration order. -/
def collectedItems (feeds : List Feed) : List NewsItem :=
  (feeds.map (fun f => collectAux f.name f.entries 0)).flatten

/-- The dedup key: `it["title"].lower()` (ASCII case folding). -/
def lowerKey (it : NewsItem) : List Char := it.title.map Char.toLower

/-- The dedup loop of `fetch_news`: `seen` is the set of keys already kept;
an item whose key is in `seen` is dropped, otherwise it is kept and its key
recorded. -/
def dedupAux (seen : List (List Char)) : List NewsItem → List NewsItem
  | [] => []
  | it :: rest =>
    if lowerKey it ∈ seen then dedupAux seen rest
    else it :: dedupAux (lowerKey it :: seen) rest

/-- Function `fetch_news` from the script, as a function of the parsed feeds:
collect per feed, deduplicate by lowercased title (first one wins), then
truncate to the global cap. -/
def fetch_news (feeds : List Feed) : List NewsItem :=
  (dedupAux [] (collectedItems feeds)).take NEWS_LIMIT

/-- The decimal digit character for `d % 10`. -/
def digitChar (d : Nat) : Char :=
  if d = 0 then '0' else if d = 1 then '1' else if d = 2 then '2'
  else if d = 3 then '3' else if d = 4 then '4' else if d = 5 then '5'
  else if d = 6 then '6' else if d = 7 then '7' else if d = 8 then '8'
  else '9'

/-- Decimal digits with a fuel argument (`fuel > n` suffices, since the
value shrinks by a factor of ten each step). -/
def natDigitsGo : Nat → Nat → List Char
  | 0, _ => []
  | fuel + 1, n =>
    if n < 10 then [digitChar n]
    else natDigitsGo fuel (n / 10) ++ [digitChar (n % 10)]

/-- Decimal digits of a natural number, most significant first. -/
def natDigits (n : Nat) : List Char := natDigitsGo (n + 1) n

/-- Jinja's `"%+.2f"|format(q)` on a finite value: explicit sign, the
integer digits, a point, and exactly two fractional digits of the value
rounded to hundredths. -/
def fmtSigned2 (q : ℚ) : List Char :=
  (if q < 0 then '-' else '+') ::
    (natDigits ((round (q * 100) : ℤ).natAbs / 100) ++
      '.' :: [digitChar ((round (q * 100) : ℤ).natAbs / 10 % 10),
              digitChar ((round (q * 100) : ℤ).natAbs % 10)])

/-- The formatted percent-change cell text: CPython renders
`"%+.2f" % float("nan")` as `+nan`. -/
def fmtChg (chg : Option ℚ) : List Char :=
  match chg with
  | some q => fmtSigned2 q
  | none => ("+nan").toList

/-- Jinja's `r.chgpct >= 0`: Python comparison, false for NaN. -/
def jinjaGeZero (chg : Option ℚ) : Bool :=
  match chg with
  | some q => decide (0 ≤ q)
  | none => false

/-- The style class chosen by the template's
`{% if r.chgpct>=0 %}up{% else %}dn{% endif %}`. -/
def rowClass (chg : Option ℚ) : String :=
  if jinjaGeZero chg then "up" else "dn"

/-- The percent-change table cell produced by the template for one row. -/
def renderIndexRow (r : IndexQuote) : List Char :=
  ("<td class=\"chp ").toList ++ (rowClass r.chgpct).toList ++
    ("\">").toList ++ fmtChg r.chgpct ++ ("%</td>").toList

/-- Holds (`true`) when the string after the sign consists of digits, then a
point, then exactly two digits. -/
def twoDecBody (rest : List Char) : Bool :=
  match rest.reverse with
  | d2 :: d1 :: c :: revDs =>
    d1.isDigit && d2.isDigit && (c = '.') && revDs.all Char.isDigit
  | _ => false

/-- Holds (`true`) when the string is an explicit sign followed by a two-decimal
fixed-point numeral. -/
def isSignedTwoDecimal (l : List Char) : Bool :=
  match l with
  | s :: rest => (s = '+' || s = '-') && twoDecBody rest
  | [] => false

/-- Builds a feed entry from string literals. -/
def mkEntry (t l s d : String) : Entry :=
  { title := t.toList, link := l.toList, summary := s.toList,
    description := d.toList }

/-- A downloaded table where only the S&P ticker has two clean closes. -/
def demoData : String → List (Option ℚ) :=
  fun tk => if tk = "^GSPC" then [some 100, some 102] else []

/-- A downloaded table where only the 10-year-yield ticker has data:
raw closes 40 and 43 (the upstream feed reports the yield times ten). -/
def demoDataTnx : String → List (Option ℚ) :=
  fun tk => if tk = "^TNX" then [some 40, some 43] else []

/-- A downloaded table where the Dow has two clean closes but the earlier
one is exactly zero. -/
def demoDataZero : String → List (Option ℚ) :=
  fun tk => if tk = "^DJI" then [some 0, some 5] else []

/-- An index quote whose percent change is the NaN sentinel, as
`fetch_prices` produces when the previous close is zero. -/
def nanQuote : IndexQuote :=
  { ticker := "^VIX", name := "VIX", last := 20, chgpct := none }

/-- Two feeds offering the same headline with different letter case. -/
def demoFeeds : List Feed :=
  [{ name := ("A").toList,
     entries := [mkEntry ("Fed Holds Rates Steady") ("http://a") ("") ("")] },
   { name := ("B").toList,
     entries := [mkEntry ("FED HOLDS RATES STEADY") ("http://b") ("") ("")] }]

/-- The item the first of the two demo feeds contributes. -/
def demoItem : NewsItem :=
  { title := ("Fed Holds Rates Steady").toList, link := ("http://a").toList,
    source := ("A").toList, summary := [] }

/-- A single feed offering seven valid entries, more than the per-feed cap. -/
def bigFeed : Feed :=
  { name := ("Big").toList,
    entries :=
      [mkEntry ("h1") ("u1") ("") (""), mkEntry ("h2") ("u2") ("") (""),
       mkEntry ("h3") ("u3") ("") (""), mkEntry ("h4") ("u4") ("") (""),
       mkEntry ("h5") ("u5") ("") (""), mkEntry ("h6") ("u6") ("") (""),
       mkEntry ("h7") ("u7") ("") ("")] }

/-- Three entries the news loop skips: missing title, missing link, both. -/
def skipDemo : List Entry :=
  [mkEntry ("") ("u") ("") (""), mkEntry ("t") ("") ("") (""),
   mkEntry ("") ("") ("") ("")]

/-- Six valid entries following the skipped ones. -/
def goodDemo : List Entry :=
  [mkEntry ("g1") ("v1") ("") (""), mkEntry ("g2") ("v2") ("") (""),
   mkEntry ("g3") ("v3") ("") (""), mkEntry ("g4") ("v4") ("") (""),
   mkEntry ("g5") ("v5") ("") (""), mkEntry ("g6") ("v6") ("") ("")]

/-- The spec's excerpting example input. -/
def c2DemoText : List Char :=
  ("Stocks rose today. Analysts are optimistic about next quarter and beyond.").toList

/-- A short, single-sentence, whitespace-clean summary. -/
def c8DemoText : List Char := ("Stocks rose today.").toList

/-- Replacing newlines is the identity on a string without newlines. -/
theorem replaceNl_id {l : List Char} (h : ('\n') ∉ l) : replaceNl l = l := by
  induction l with
  | nil => rfl
  | cons c t ih =>
    have ht : ('\n') ∉ t := fun m => h (List.mem_cons_of_mem _ m)
    have hc : ¬(c = '\n') := fun e => h (by rw [e]; exact List.mem_cons_self _ _)
    show (if c = '\n' then ' ' else c) :: replaceNl t = c :: t
    rw [if_neg hc, ih ht]

/-- The double-space pass is the identity on a string without two adjacent
spaces. -/
theorem collapseTwo_id {l : List Char} (h : noTwoSpaces l = true) :
    collapseTwo l = l := by
  induction l with
  | nil => rfl
  | cons c t ih =>
    cases t with
    | nil => rfl
    | cons c2 t2 =>
      by_cases hcc : c = ' ' ∧ c2 = ' '
      · exfalso
        have hfalse : noTwoSpaces (c :: c2 :: t2) = false := by
          simp only [noTwoSpaces, if_pos hcc]
        rw [h] at hfalse
        exact Bool.noConfusion hfalse
      · have ht : noTwoSpaces (c2 :: t2) = true := by
          have := h
          simp only [noTwoSpaces, if_neg hcc] at this
          exact this
        show collapseTwo (c :: c2 :: t2) = c :: c2 :: t2
        simp only [collapseTwo, if_neg hcc]
        rw [ih ht]

/-- On a clean, short, single-sentence input, `safe_first_sentence` is the
identity. -/
theorem safe_id_of_clean {text : List Char} (hstrip : pyStrip text = text)
    (hnl : ('\n') ∉ text) (hsp : noTwoSpaces text = true)
    (hlen : text.length ≤ 220) (hdot : findDot text = none) :
    safe_first_sentence text 220 = text := by
  by_cases h0 : text = []
  · rw [h0]; rfl
  · unfold safe_first_sentence
    rw [if_neg h0]
    unfold cleanText
    rw [hstrip, replaceNl_id hnl, collapseTwo_id hsp]
    unfold cutAtDot
    rw [hdot]
    exact List.take_of_length_le hlen

/-- The code's cut followed by the final hard truncation agrees with the
amended single-step rule. -/
theorem cut_take_eq (s : List Char) (m : Nat) :
    (cutAtDot s m).take m = amendedCut s m := by
  unfold cutAtDot amendedCut
  cases hd : findDot s with
  | none => rfl
  | some dot =>
    show List.take m (if 0 < dot ∧ dot < m then List.take (dot + 1) s else s) =
      if 0 < dot ∧ dot < m then List.take (dot + 1) s else List.take m s
    by_cases hc : 0 < dot ∧ dot < m
    · rw [if_pos hc, if_pos hc, List.take_take,
        min_eq_right (by omega : dot + 1 ≤ m)]
    · rw [if_neg hc, if_neg hc]

/-- Evaluating `pct` on two present floats with a non-zero divisor. -/
theorem pct_some {x y : ℚ} (hy : y ≠ 0) :
    pct (some x) (some y) = some ((x / y - 1) * 100) := by
  simp only [pct, pctTry]
  rw [if_neg hy]

/-- Evaluating `pct` on a zero divisor: the caught `ZeroDivisionError` becomes NaN. -/
theorem pct_zero (x : ℚ) : pct (some x) (some 0) = none := by
  simp [pct, pctTry]

/-- The per-ticker body on a history whose clean tail is exactly two
closes. -/
theorem quoteFor_of_tail {data : String → List (Option ℚ)}
    {tk label : String} {prev_close last_close : ℚ}
    (hlen : 2 ≤ ((data tk).filterMap id).length)
    (hdrop : ((data tk).filterMap id).drop
        (((data tk).filterMap id).length - 2) = [prev_close, last_close]) :
    quoteFor data tk label = some
      { ticker := tk
        name := label
        last := round2 (if tk = "^TNX" then last_close / 10 else last_close)
        chgpct :=
          Option.map round2 (pct (some last_close) (some prev_close)) } := by
  unfold quoteFor
  rw [if_neg (by omega), hdrop]

/-- The per-ticker body skips a ticker with fewer than two clean closes. -/
theorem quoteFor_skip {data : String → List (Option ℚ)} {tk label : String}
    (h : ((data tk).filterMap id).length < 2) :
    quoteFor data tk label = none := by
  unfold quoteFor
  rw [if_pos h]

/-- The per-feed loop emits nothing once the counter has reached the cap. -/
theorem collectAux_stop {src : List Char} {l : List Entry} {c : Nat}
    (h : NEWS_PER_SOURCE ≤ c) : collectAux src l c = [] := by
  cases l with
  | nil => rfl
  | cons e t =>
    simp only [collectAux]
    rw [if_pos h]

/-- Length of the per-feed loop's output: the remaining quota capped by the
number of valid entries. -/
theorem collectAux_length (src : List Char) (l : List Entry) :
    ∀ c : Nat, (collectAux src l c).length =
      min (NEWS_PER_SOURCE - c) (l.countP validEntry) := by
  induction l with
  | nil => intro c; simp [collectAux]
  | cons e t ih =>
    intro c
    by_cases h5 : NEWS_PER_SOURCE ≤ c
    · simp only [collectAux, if_pos h5]
      have h0 : NEWS_PER_SOURCE - c = 0 := Nat.sub_eq_zero_of_le h5
      simp [h0]
    · by_cases hv : e.title = [] ∨ e.link = []
      · simp only [collectAux, if_neg h5, if_pos hv]
        rw [ih c, List.countP_cons]
        have hve : validEntry e = false := by simp [validEntry, hv]
        rw [hve]
        simp
      · simp only [collectAux, if_neg h5, if_neg hv]
        rw [List.length_cons, ih (c + 1), List.countP_cons]
        have hve : validEntry e = true := by simp [validEntry, hv]
        rw [hve]
        simp only [if_true, NEWS_PER_SOURCE] at h5 ⊢
        rw [Nat.min_def, Nat.min_def]
        split <;> split <;> omega

/-- Skipped entries (empty title or link) before the rest of a feed leave
the loop's output and counter unchanged. -/
theorem collectAux_skip_all (src : List Char) (rest : List Entry) (c : Nat) :
    ∀ bad : List Entry, (∀ e ∈ bad, e.title = [] ∨ e.link = []) →
      collectAux src (bad ++ rest) c = collectAux src rest c := by
  intro bad
  induction bad with
  | nil => intro _; rfl
  | cons e bt ih =>
    intro hbad
    by_cases h5 : NEWS_PER_SOURCE ≤ c
    · rw [collectAux_stop h5, collectAux_stop h5]
    · have he : e.title = [] ∨ e.link = [] := hbad e (List.mem_cons_self _ _)
      show collectAux src (e :: (bt ++ rest)) c = collectAux src rest c
      simp only [collectAux, if_neg h5, if_pos he]
      exact ih (fun x hx => hbad x (List.mem_cons_of_mem _ hx))

/-- The dedup loop returns a sublist of its input. -/
theorem dedupAux_sublist (seen : List (List Char)) (l : List NewsItem) :
    (dedupAux seen l).Sublist l := by
  induction l generalizing seen with
  | nil => exact List.Sublist.refl []
  | cons a t ih =>
    simp only [dedupAux]
    split
    · exact List.Sublist.cons a (ih seen)
    · exact List.Sublist.cons₂ a (ih _)

/-- No item the dedup loop keeps has a key that was already seen. -/
theorem dedupAux_key_not_seen (seen : List (List Char))
    (l : List NewsItem) :
    ∀ it ∈ dedupAux seen l, lowerKey it ∉ seen := by
  induction l generalizing seen with
  | nil => intro it h; simp [dedupAux] at h
  | cons a t ih =>
    intro it h
    simp only [dedupAux] at h
    by_cases hs : lowerKey a ∈ seen
    · rw [if_pos hs] at h
      exact ih seen it h
    · rw [if_neg hs] at h
      rcases List.mem_cons.mp h with h1 | h2
      · rw [h1]; exact hs
      · intro hmem
        exact (ih _ it h2) (List.mem_cons_of_mem _ hmem)

/-- The dedup loop's output has pairwise distinct case-folded keys. -/
theorem dedupAux_pairwise (seen : List (List Char)) (l : List NewsItem) :
    (dedupAux seen l).Pairwise (fun a b => lowerKey a ≠ lowerKey b) := by
  induction l generalizing seen with
  | nil => simp [dedupAux]
  | cons a t ih =>
    simp only [dedupAux]
    split
    · exact ih seen
    · refine List.Pairwise.cons ?_ (ih _)
      intro b hb he
      exact (dedupAux_key_not_seen _ _ b hb)
        (List.mem_cons.mpr (Or.inl he.symm))

/-- Every item the dedup loop keeps is the first occurrence of its key in
the input (relative to keys not already seen). -/
theorem dedupAux_first (seen : List (List Char)) (l : List NewsItem) :
    ∀ it ∈ dedupAux seen l, ∃ pre post, l = pre ++ it :: post ∧
      ∀ x ∈ pre, lowerKey x ≠ lowerKey it := by
  induction l generalizing seen with
  | nil => intro it h; simp [dedupAux] at h
  | cons a t ih =>
    intro it h
    simp only [dedupAux] at h
    by_cases hs : lowerKey a ∈ seen
    · rw [if_pos hs] at h
      obtain ⟨pre, post, heq, hpre⟩ := ih seen it h
      have hit : lowerKey it ∉ seen := dedupAux_key_not_seen seen t it h
      refine ⟨a :: pre, post, by rw [heq]; rfl, ?_⟩
      intro x hx
      rcases List.mem_cons.mp hx with h1 | h2
      · rw [h1]
        intro he
        exact hit (he ▸ hs)
      · exact hpre x h2
    · rw [if_neg hs] at h
      rcases List.mem_cons.mp h with h1 | h2
      · exact ⟨[], t, by rw [h1]; rfl, fun x hx => absurd hx (List.not_mem_nil x)⟩
      · obtain ⟨pre, post, heq, hpre⟩ := ih _ it h2
        have hit : lowerKey it ∉ lowerKey a :: seen :=
          dedupAux_key_not_seen _ t it h2
        refine ⟨a :: pre, post, by rw [heq]; rfl, ?_⟩
        intro x hx
        rcases List.mem_cons.mp hx with h1 | h2x
        · rw [h1]
          intro he
          exact hit (List.mem_cons.mpr (Or.inl he.symm))
        · exact hpre x h2x

/-- Every digit character is a digit. -/
theorem digitChar_isDigit (d : Nat) : (digitChar d).isDigit = true := by
  unfold digitChar
  split_ifs <;> decide

/-- Every character the fueled digit printer emits is a digit. -/
theorem natDigitsGo_all_digit (fuel : Nat) :
    ∀ n : Nat, ∀ c ∈ natDigitsGo fuel n, c.isDigit = true := by
  induction fuel with
  | zero => intro n c hc; simp [natDigitsGo] at hc
  | succ f ih =>
    intro n c hc
    unfold natDigitsGo at hc
    split at hc
    · rw [List.mem_singleton.mp hc]
      exact digitChar_isDigit n
    · rcases List.mem_append.mp hc with h1 | h2
      · exact ih (n / 10) c h1
      · rw [List.mem_singleton.mp h2]
        exact digitChar_isDigit _

/-- Every character of a printed natural number is a digit. -/
theorem natDigits_all_digit (n : Nat) :
    ∀ c ∈ natDigits n, c.isDigit = true :=
  natDigitsGo_all_digit (n + 1) n

/-- A digit string followed by a point and two digits passes the
two-decimal shape check. -/
theorem twoDecBody_of (ds : List Char) (hds : ∀ c ∈ ds, c.isDigit = true)
    (d1 d2 : Char) (h1 : d1.isDigit = true) (h2 : d2.isDigit = true) :
    twoDecBody (ds ++ '.' :: [d1, d2]) = true := by
  unfold twoDecBody
  rw [show (ds ++ '.' :: [d1, d2]).reverse = d2 :: d1 :: '.' :: ds.reverse
    from by simp [List.reverse_append]]
  have hall : (ds.reverse).all Char.isDigit = true := by
    rw [List.all_eq_true]
    intro x hx
    exact hds x (List.mem_reverse.mp hx)
  show (d1.isDigit && d2.isDigit && decide (('.' : Char) = '.') &&
    List.all ds.reverse Char.isDigit) = true
  rw [h1, h2, hall]
  decide

/-- Whatever quote the per-ticker body emits carries that ticker symbol. -/
theorem quoteFor_ticker {data : String → List (Option ℚ)}
    {a b : String} {q : IndexQuote} (h : quoteFor data a b = some q) :
    q.ticker = a := by
  unfold quoteFor at h
  split at h
  · exact Option.noConfusion h
  · split at h
    · injection h with h2
      rw [← h2]
    · exact Option.noConfusion h


/-- Claim C1: for every ticker whose cleaned history has at least two valid
closes, `fetch_prices` outputs a quote whose `chgpct` is
`(last/prev - 1) * 100` rounded to two decimals, computed from the two most
recent valid closes (the division being meaningful when the previous close
is non-zero); for a ticker with fewer than two valid closes no quote with
that ticker appears. -/
theorem c1_pct_change (data : String → List (Option ℚ)) (tk label : String)
    (hmem : (tk, label) ∈ TICKERS) :
    (((data tk).filterMap id).length < 2 →
      ∀ q ∈ fetch_prices data, q.ticker ≠ tk) ∧
    (∀ prev_close last_close : ℚ,
      2 ≤ ((data tk).filterMap id).length →
      ((data tk).filterMap id).drop (((data tk).filterMap id).length - 2) =
        [prev_close, last_close] →
      prev_close ≠ 0 →
      ∃ q ∈ fetch_prices data, q.ticker = tk ∧
        q.chgpct = some (round2 ((last_close / prev_close - 1) * 100))) := by
  constructor
  · intro hlt q hq heq
    unfold fetch_prices at hq
    rw [List.mem_filterMap] at hq
    obtain ⟨p, hp, he⟩ := hq
    have hpt : q.ticker = p.1 := quoteFor_ticker he
    have hptk : p.1 = tk := by rw [← hpt, heq]
    rw [hptk] at he
    rw [quoteFor_skip hlt] at he
    exact Option.noConfusion he
  · intro prev_close last_close hlen hdrop hprev
    refine ⟨_, List.mem_filterMap.mpr
      ⟨(tk, label), hmem, quoteFor_of_tail hlen hdrop⟩, rfl, ?_⟩
    show Option.map round2 (pct (some last_close) (some prev_close)) =
      some (round2 ((last_close / prev_close - 1) * 100))
    rw [pct_some hprev]
    rfl

/-- Claim C1 witness: with a table where only the S&P ticker has the two
closes 100 and 102, the S&P quote carries the rounded percent change and
the NASDAQ ticker is absent. -/
theorem c1_witness :
    (∀ q ∈ fetch_prices demoData, q.ticker ≠ "^IXIC") ∧
    (∃ q ∈ fetch_prices demoData, q.ticker = "^GSPC" ∧
      q.chgpct = some (round2 ((102 / 100 - 1) * 100))) := by
  constructor
  · exact (c1_pct_change demoData ("^IXIC") ("NASDAQ") (by decide)).1
      (by decide)
  · exact (c1_pct_change demoData ("^GSPC") ("S&P 500") (by decide)).2
      100 102 (by decide) (by decide) (by decide)

/-- Claim C5: when the bond-yield ticker has two valid closes, the emitted
`last` is the raw last close divided by 10 then rounded to two decimals;
every other ticker's `last` is the raw last close rounded with no
scaling. -/
theorem c5_tnx_scaling (data : String → List (Option ℚ))
    (tk label : String) (hmem : (tk, label) ∈ TICKERS)
    (prev_close last_close : ℚ)
    (hlen : 2 ≤ ((data tk).filterMap id).length)
    (hdrop : ((data tk).filterMap id).drop
      (((data tk).filterMap id).length - 2) = [prev_close, last_close]) :
    ∃ q ∈ fetch_prices data, q.ticker = tk ∧
      (tk = "^TNX" → q.last = round2 (last_close / 10)) ∧
      (tk ≠ "^TNX" → q.last = round2 last_close) := by
  refine ⟨_, List.mem_filterMap.mpr
    ⟨(tk, label), hmem, quoteFor_of_tail hlen hdrop⟩, rfl, ?_, ?_⟩
  · intro ht
    show round2 (if tk = "^TNX" then last_close / 10 else last_close) = _
    rw [if_pos ht]
  · intro ht
    show round2 (if tk = "^TNX" then last_close / 10 else last_close) = _
    rw [if_neg ht]

/-- Claim C5 witness: raw closes 40 and 43 for the 10-year yield give a
displayed last of `round2 (43/10)`; the S&P with closes 100 and 102 keeps
`round2 102`. -/
theorem c5_witness :
    (∃ q ∈ fetch_prices demoDataTnx, q.ticker = "^TNX" ∧
      ("^TNX" = "^TNX" → q.last = round2 (43 / 10)) ∧
      ("^TNX" ≠ "^TNX" → q.last = round2 43)) ∧
    (∃ q ∈ fetch_prices demoData, q.ticker = "^GSPC" ∧
      ("^GSPC" = "^TNX" → q.last = round2 (102 / 10)) ∧
      ("^GSPC" ≠ "^TNX" → q.last = round2 102)) := by
  constructor
  · exact c5_tnx_scaling demoDataTnx ("^TNX") ("US 10Y") (by decide)
      40 43 (by decide) (by decide)
  · exact c5_tnx_scaling demoData ("^GSPC") ("S&P 500") (by decide)
      100 102 (by decide) (by decide)

/-- Claim C6: `pct` never lets an exception escape — whenever its `try`
body raises, it returns the NaN sentinel — and in particular a zero or
absent previous close yields NaN. -/
theorem c6_pct_guard (a : Option ℚ) :
    (∀ b : Option ℚ, ∀ e : String,
      pctTry a b = Except.error e → pct a b = none) ∧
    pct a (some 0) = none ∧ pct a none = none := by
  refine ⟨?_, ?_, ?_⟩
  · intro b e he
    unfold pct
    rw [he]
  · cases a with
    | none => rfl
    | some x => exact pct_zero x
  · cases a <;> rfl

/-- Claim C6 witness: `pct` at a zero and at an absent previous close. -/
theorem c6_witness : pct (some 1) (some 0) = none ∧
    pct (some 1) none = none :=
  ⟨(c6_pct_guard (some 1)).2.1, (c6_pct_guard (some 1)).2.2⟩

/-- Claim C9: a ticker whose cleaned history has two valid closes with a
previous close of exactly zero is not dropped: its quote appears with the
NaN sentinel as percent change. -/
theorem c9_zero_prev_kept (data : String → List (Option ℚ))
    (tk label : String) (hmem : (tk, label) ∈ TICKERS) (last_close : ℚ)
    (hlen : 2 ≤ ((data tk).filterMap id).length)
    (hdrop : ((data tk).filterMap id).drop
      (((data tk).filterMap id).length - 2) = [0, last_close]) :
    ∃ q ∈ fetch_prices data, q.ticker = tk ∧ q.chgpct = none := by
  refine ⟨_, List.mem_filterMap.mpr
    ⟨(tk, label), hmem, quoteFor_of_tail hlen hdrop⟩, rfl, ?_⟩
  show Option.map round2 (pct (some last_close) (some 0)) = none
  rw [pct_zero]
  rfl

/-- Claim C9 witness: the Dow with closes 0 and 5 still appears, with NaN
percent change. -/
theorem c9_witness :
    ∃ q ∈ fetch_prices demoDataZero, q.ticker = "^DJI" ∧ q.chgpct = none :=
  c9_zero_prev_kept demoDataZero ("^DJI") ("Dow Jones") (by decide)
    5 (by decide) (by decide)

/-- Claim C2 counterexample: on the input ". ab" the first ". " sits at
index 0, which lies before the 220-character budget, so the claimed rule
truncates to "." — but the code's `0 < dot` guard skips the cut and
returns ". ab" unchanged. -/
theorem c2_counterexample :
    safe_first_sentence ['.', ' ', 'a', 'b'] 220 = ['.', ' ', 'a', 'b'] ∧
    claimed_first_sentence ['.', ' ', 'a', 'b'] 220 = ['.'] ∧
    safe_first_sentence ['.', ' ', 'a', 'b'] 220 ≠
      claimed_first_sentence ['.', ' ', 'a', 'b'] 220 := by
  decide

/-- Claim C2 as amended: `safe_first_sentence` strips, collapses, and then
truncates after the first ". " exactly when its index is strictly positive
and below the 220-character budget, hard-truncating at 220 otherwise;
empty input yields the empty string.  Stated as agreement with the rule
written out from those words. -/
theorem c2_amended_excerpt (text : List Char) :
    safe_first_sentence text 220 = amended_first_sentence text 220 := by
  by_cases h0 : text = []
  · rw [h0]; rfl
  · unfold safe_first_sentence amended_first_sentence
    rw [if_neg h0, if_neg h0]
    exact cut_take_eq (cleanText text) 220

/-- Claim C2 witness: the amended rule evaluated on the spec's example
summary, which cuts to "Stocks rose today.". -/
theorem c2_witness :
    safe_first_sentence c2DemoText 220 = amended_first_sentence c2DemoText 220 ∧
    safe_first_sentence c2DemoText 220 = ("Stocks rose today.").toList :=
  ⟨c2_amended_excerpt c2DemoText, by decide⟩

/-- Claim C8: on an already-short (at most 220 characters), single-sentence
(no ". " boundary), whitespace-clean input, `safe_first_sentence` is
idempotent. -/
theorem c8_idempotent (text : List Char) (hstrip : pyStrip text = text)
    (hnl : ('\n') ∉ text) (hsp : noTwoSpaces text = true)
    (hlen : text.length ≤ 220) (hdot : findDot text = none) :
    safe_first_sentence (safe_first_sentence text 220) 220 =
      safe_first_sentence text 220 := by
  have hfix : safe_first_sentence text 220 = text :=
    safe_id_of_clean hstrip hnl hsp hlen hdot
  rw [hfix]
  exact hfix

/-- Claim C8 witness: idempotence on the clean single sentence
"Stocks rose today.". -/
theorem c8_witness :
    safe_first_sentence (safe_first_sentence c8DemoText 220) 220 =
      safe_first_sentence c8DemoText 220 :=
  c8_idempotent c8DemoText (by decide) (by decide) (by decide) (by decide)
    (by decide)

/-- Claim C3: no two items of `fetch_news`'s output have case-folded-equal
titles, and every output item is the first item with its case-folded title
in the list collected in feed-iteration order. -/
theorem c3_dedup (feeds : List Feed) :
    (fetch_news feeds).Pairwise (fun a b => lowerKey a ≠ lowerKey b) ∧
    ∀ it ∈ fetch_news feeds, ∃ pre post,
      collectedItems feeds = pre ++ it :: post ∧
      ∀ x ∈ pre, lowerKey x ≠ lowerKey it := by
  constructor
  · exact List.Pairwise.sublist (List.take_sublist _ _)
      (dedupAux_pairwise [] (collectedItems feeds))
  · intro it h
    exact dedupAux_first [] (collectedItems feeds) it (List.mem_of_mem_take h)

/-- Claim C3 witness: with two feeds offering the same headline in
different letter case, the output keys are pairwise distinct and the item
kept for that headline is the first feed's. -/
theorem c3_witness :
    (fetch_news demoFeeds).Pairwise (fun a b => lowerKey a ≠ lowerKey b) ∧
    (∃ pre post, collectedItems demoFeeds = pre ++ demoItem :: post ∧
      ∀ x ∈ pre, lowerKey x ≠ lowerKey demoItem) :=
  ⟨(c3_dedup demoFeeds).1, (c3_dedup demoFeeds).2 demoItem (by decide)⟩

/-- Claim C4: the news list is at most `NEWS_LIMIT` long; each single feed
contributes at most `NEWS_PER_SOURCE` items even when it offers more (the
output is a sublist of the concatenation of the per-feed contributions,
each of which is capped). -/
theorem c4_caps (feeds : List Feed) :
    (fetch_news feeds).length ≤ NEWS_LIMIT ∧
    (∀ f ∈ feeds, (collectAux f.name f.entries 0).length ≤ NEWS_PER_SOURCE) ∧
    (fetch_news feeds).Sublist (collectedItems feeds) := by
  refine ⟨List.length_take_le _ _, ?_, ?_⟩
  · intro f hf
    rw [collectAux_length f.name f.entries 0]
    exact le_trans (Nat.min_le_left _ _) (by omega)
  · exact (List.take_sublist _ _).trans (dedupAux_sublist [] _)

/-- Claim C4 witness: a feed offering seven valid entries contributes at
most five items, and the output list respects the global cap. -/
theorem c4_witness :
    (fetch_news [bigFeed]).length ≤ NEWS_LIMIT ∧
    (collectAux bigFeed.name bigFeed.entries 0).length ≤ NEWS_PER_SOURCE :=
  ⟨(c4_caps [bigFeed]).1,
    (c4_caps [bigFeed]).2.1 bigFeed (List.mem_singleton_self bigFeed)⟩

/-- Claim C10: entries skipped for a missing title or link do not consume
the per-feed quota — a block of invalid entries in front of the rest of
the feed leaves the loop's output unchanged — and the loop's output length
is the remaining quota capped by the number of valid entries, so enough
valid entries later in the feed always fill the quota. -/
theorem c10_quota (src : List Char) (bad rest : List Entry) (c : Nat)
    (hbad : ∀ e ∈ bad, e.title = [] ∨ e.link = []) :
    collectAux src (bad ++ rest) c = collectAux src rest c ∧
    (collectAux src rest c).length =
      min (NEWS_PER_SOURCE - c) (rest.countP validEntry) :=
  ⟨collectAux_skip_all src rest c bad hbad, collectAux_length src rest c⟩

/-- Claim C10 witness: three invalid entries before six valid ones change
nothing, and the six valid entries fill the quota of five. -/
theorem c10_witness :
    collectAux ("X").toList (skipDemo ++ goodDemo) 0 =
      collectAux ("X").toList goodDemo 0 ∧
    (collectAux ("X").toList goodDemo 0).length =
      min (NEWS_PER_SOURCE - 0) (goodDemo.countP validEntry) :=
  c10_quota ("X").toList skipDemo goodDemo 0 (by decide)

/-- Claim C7 counterexample: an `IndexQuote` whose `chgpct` is the NaN
sentinel is renderable (claim C9 shows `fetch_prices` emits such quotes),
and for it the template prints "+nan%" — not a signed two-decimal numeral —
while still applying the negative class although NaN is not below zero. -/
theorem c7_counterexample :
    nanQuote.chgpct = none ∧
    isSignedTwoDecimal (fmtChg nanQuote.chgpct) = false ∧
    rowClass nanQuote.chgpct = "dn" := by
  refine ⟨rfl, by decide, rfl⟩

/-- Claim C7 as amended: for every rendered `IndexQuote` whose percent
change is not the NaN sentinel, the change is formatted with an explicit
sign and exactly two decimal places, and exactly one of the two style
classes is applied, decided by the threshold at zero: the "up" class
exactly when the change is at least zero (zero included), the "dn" class
exactly when it is below zero. -/
theorem c7_amended_format (r : IndexQuote) (q : ℚ)
    (h : r.chgpct = some q) :
    isSignedTwoDecimal (fmtChg r.chgpct) = true ∧
    (rowClass r.chgpct = "up" ↔ 0 ≤ q) ∧
    (rowClass r.chgpct = "dn" ↔ q < 0) := by
  rw [h]
  have hup : 0 ≤ q → rowClass (some q) = "up" := by
    intro hq
    simp [rowClass, jinjaGeZero, hq]
  have hdn : q < 0 → rowClass (some q) = "dn" := by
    intro hq
    simp [rowClass, jinjaGeZero, not_le.mpr hq]
  refine ⟨?_, ?_, ?_⟩
  · show isSignedTwoDecimal (fmtSigned2 q) = true
    unfold fmtSigned2 isSignedTwoDecimal
    rw [Bool.and_eq_true]
    constructor
    · by_cases hq : q < 0
      · rw [if_pos hq]; decide
      · rw [if_neg hq]; decide
    · exact twoDecBody_of _ (natDigits_all_digit _) _ _
        (digitChar_isDigit _) (digitChar_isDigit _)
  · constructor
    · intro hcl
      by_contra hq
      have hd := hdn (not_le.mp hq)
      rw [hd] at hcl
      exact absurd hcl (by decide)
    · exact hup
  · constructor
    · intro hcl
      by_contra hq
      have hu := hup (not_lt.mp hq)
      rw [hu] at hcl
      exact absurd hcl (by decide)
    · exact hdn

/-- Claim C7 witness: the spec's examples — a +2 percent change renders as
"+2.00" with the "up" class, a -2 percent change as "-2.00" with the "dn"
class. -/
theorem c7_witness :
    (isSignedTwoDecimal (fmtChg (some 2)) = true ∧
      (rowClass (some 2) = "up" ↔ (0 : ℚ) ≤ 2) ∧
      (rowClass (some 2) = "dn" ↔ (2 : ℚ) < 0)) ∧
    fmtChg (some 2) = ("+2.00").toList ∧ rowClass (some 2) = "up" ∧
    fmtChg (some (-2)) = ("-2.00").toList ∧ rowClass (some (-2)) = "dn" := by
  refine ⟨c7_amended_format
      { ticker := "^GSPC", name := "S&P 500", last := 102, chgpct := some 2 }
      2 rfl, ?_, by decide, ?_, by decide⟩
  · show fmtSigned2 2 = ("+2.00").toList
    unfold fmtSigned2
    rw [show round ((2 : ℚ) * 100) = 200 from by norm_num [round_eq],
      if_neg (by norm_num : ¬(2 : ℚ) < 0)]
    decide
  · show fmtSigned2 (-2) = ("-2.00").toList
    unfold fmtSigned2
    rw [show round ((-2 : ℚ) * 100) = -200 from by norm_num [round_eq],
      if_pos (by norm_num : (-2 : ℚ) < 0)]
    decide
